import Mathlib

/-!
Verification development for the differential-value-iteration repository.

The embedding covers the three source files:
* `environments/structure.py` — validated `MarkovRewardProcess` /
  `MarkovDecisionProcess` records (`__post_init__` validation is modelled as
  `Except`-returning constructors);
* `environments/garet.py` — the GARET random-MDP generator;
* `experiments/evaluation_convergence.py` — the convergence sweep harness.

Numeric values (numpy float32/float64 entries) are idealised as exact
rationals `ℚ`; the dtype of an array is tracked separately as a tag, which is
what the structural validation compares.  numpy `ndarray`s of rank 1/2/3 are
embedded as (rectangular) nested lists together with their dtype tag.
-/

set_option maxHeartbeats 1000000
set_option maxRecDepth 2048

/-- Numeric element types used by the repository (`np.float32` / `np.float64`,
selected by the `--64bit` flag and passed to environment constructors). -/
inductive DType where
  | float32
  | float64
deriving DecidableEq, Repr

/-- Printable dtype name, mirroring `dtype.__name__` in the python source. -/
def dtypeName : DType → String
  | .float32 => "float32"
  | .float64 => "float64"

/-- Payload of a numpy `ndarray` of rank 1, 2 or 3: nested lists of exact
rational entries.  Arrays produced by numpy are always rectangular; theorems
that need rectangularity state it as a hypothesis. -/
inductive NpData where
  | d1 (xs : List ℚ)
  | d2 (xss : List (List ℚ))
  | d3 (xsss : List (List (List ℚ)))
deriving DecidableEq, Repr

/-- Shallow embedding of a numpy `ndarray`: its (rank ≤ 3) data plus its dtype
tag.  Entry values are idealised as exact rationals. -/
structure NDArray where
  data : NpData
  dtype : DType
deriving DecidableEq, Repr

/-! ### Kernel-reducible rational arithmetic

Batteries marks `Rat.add`, `Rat.sub`, `Rat.mul` and `Rat.inv` `@[irreducible]`,
which blocks `decide`/`rfl` evaluation of concrete instances.  The embedding
therefore computes with the following equivalent operations (each proved equal
to the standard one), built from the reducible smart constructor `mkRat`. -/

/-- Rational addition via `mkRat`; equal to `+` by `qadd_eq`. -/
def qadd (a b : ℚ) : ℚ := mkRat (a.num * b.den + b.num * a.den) (a.den * b.den)

/-- Rational subtraction via `mkRat`; equal to `-` by `qsub_eq`. -/
def qsub (a b : ℚ) : ℚ := mkRat (a.num * b.den - b.num * a.den) (a.den * b.den)

/-- Rational multiplication via `mkRat`; equal to `*` by `qmul_eq`. -/
def qmul (a b : ℚ) : ℚ := mkRat (a.num * b.num) (a.den * b.den)

/-- Rational inverse via `Rat.divInt`; equal to `Inv.inv` by `qinv_eq`. -/
def qinv (a : ℚ) : ℚ := Rat.divInt a.den a.num

/-- Rational division; equal to `/` by `qdiv_eq`. -/
def qdiv (a b : ℚ) : ℚ := qmul a (qinv b)

/-- Absolute value (`np.abs`) of a rational; equal to `|·|` by `absQ_eq_abs`. -/
def absQ (x : ℚ) : ℚ := if x < 0 then -x else x

/-- Sum (`np.sum`) of a vector of rationals; equal to `List.sum` by
`sumQ_eq_sum`. -/
def sumQ : List ℚ → ℚ
  | [] => 0
  | x :: xs => qadd x (sumQ xs)

theorem qadd_eq (a b : ℚ) : qadd a b = a + b := (Rat.add_def' a b).symm

theorem qsub_eq (a b : ℚ) : qsub a b = a - b := (Rat.sub_def' a b).symm

theorem qmul_eq (a b : ℚ) : qmul a b = a * b := by
  rw [qmul, Rat.mul_def, Rat.normalize_eq_mkRat]

theorem qinv_eq (a : ℚ) : qinv a = a⁻¹ := by
  rw [qinv, ← Rat.inv_def]; rfl

theorem qdiv_eq (a b : ℚ) : qdiv a b = a / b := by
  rw [qdiv, qmul_eq, qinv_eq, div_eq_mul_inv]

theorem sumQ_eq_sum : ∀ xs : List ℚ, sumQ xs = xs.sum
  | [] => rfl
  | x :: xs => by rw [sumQ, qadd_eq, List.sum_cons, sumQ_eq_sum xs]

theorem absQ_eq_abs (x : ℚ) : absQ x = |x| := by
  rw [absQ]
  by_cases h : x < 0
  · rw [if_pos h, abs_of_neg h]
  · rw [if_neg h, abs_of_nonneg (le_of_not_lt h)]

theorem map_sumQ (l : List (List ℚ)) : l.map sumQ = l.map List.sum := by
  induction l with
  | nil => rfl
  | cons x xs ih => rw [List.map_cons, List.map_cons, sumQ_eq_sum, ih]

/-- Tolerance `_TRANSITION_SUM_TOLERANCE = 1e-5` from
`environments/structure.py`. -/
def transitionSumTolerance : ℚ := mkRat 1 100000

theorem transitionSumTolerance_eq : transitionSumTolerance = 1 / 100000 := by
  rw [transitionSumTolerance, Rat.mkRat_eq_div]; norm_num

/-- Ascending indices (starting at `n`) of the elements of `xs` satisfying `p`;
this models `np.argwhere(np.where(cond, True, False))` on a 1-D array, which
yields the positions where `cond` holds, in ascending order. -/
def badIndicesFrom (p : ℚ → Prop) [DecidablePred p] : Nat → List ℚ → List Nat
  | _, [] => []
  | n, x :: xs =>
    if p x then n :: badIndicesFrom p (n + 1) xs else badIndicesFrom p (n + 1) xs

/-- Error cases raised by `MarkovRewardProcess.__post_init__`, in source
order.  `badRows` carries the offending state indices reported in the message. -/
inductive MrpError where
  | transNdim (shape0 : Nat)
  | notSquare
  | rewNdim
  | statesMismatch
  | dtypeMismatch (a b : DType)
  | badRows (badStates : List Nat)
deriving DecidableEq, Repr

/-- Error cases raised by `MarkovDecisionProcess.__post_init__`, in source
order.  `badRows` carries the offending action index and the offending state
indices for that action, as reported in the message. -/
inductive MdpError where
  | transNdim
  | notSquare
  | rewNdim
  | actionsMismatch
  | statesMismatch
  | dtypeMismatch (a b : DType)
  | badRows (actionIdx : Nat) (badStates : List Nat)
deriving DecidableEq, Repr

/-- Validation performed by `MarkovRewardProcess.__post_init__`: rank and
squareness of `transitions`, rank and length of `rewards`, dtype equality, and
that every transition row sums to exactly 1 (`sums != 1.`, no tolerance).
The checks run in source order; the first failing check raises. -/
def mrpValidate (t r : NDArray) : Except MrpError Unit :=
  match t.data with
  | .d2 rows =>
    if rows.length ≠ (rows.headD []).length then .error .notSquare
    else
      match r.data with
      | .d1 rew =>
        if rows.length ≠ rew.length then .error .statesMismatch
        else if t.dtype ≠ r.dtype then .error (.dtypeMismatch t.dtype r.dtype)
        else
          match badIndicesFrom (fun s => s ≠ 1) 0 (rows.map sumQ) with
          | [] => .ok ()
          | bad => .error (.badRows bad)
      | _ => .error .rewNdim
  | _ => .error (.transNdim 0)

/-- Validated immutable MRP record (`@dataclasses.dataclass(frozen=True)`). -/
structure MarkovRewardProcess where
  transitions : NDArray
  rewards : NDArray
  name : String
deriving DecidableEq, Repr

/-- Constructing a `MarkovRewardProcess`: `__post_init__` validation runs
synchronously; on violation the error is raised and no instance is produced. -/
def mkMarkovRewardProcess (t r : NDArray) (name : String) :
    Except MrpError MarkovRewardProcess :=
  match mrpValidate t r with
  | .ok _ => .ok ⟨t, r, name⟩
  | .error e => .error e

/-- Offending state indices of one action's `S×S` transition block: the states
whose outgoing probability mass deviates from 1 by more than the tolerance
(`np.abs(1 - sums) > _TRANSITION_SUM_TOLERANCE`). -/
def mdpBadStates (block : List (List ℚ)) : List Nat :=
  badIndicesFrom (fun s => transitionSumTolerance < absQ (qsub 1 s)) 0
    (block.map sumQ)

/-- The `for action_idx, transitions in enumerate(self.transitions)` loop of
`MarkovDecisionProcess.__post_init__`: the first action (from index `a`
upward) with a non-empty offending-state list, together with that list. -/
def mdpFirstBadAction : Nat → List (List (List ℚ)) → Option (Nat × List Nat)
  | _, [] => none
  | a, block :: rest =>
    match mdpBadStates block with
    | [] => mdpFirstBadAction (a + 1) rest
    | bad => some (a, bad)

/-- Validation performed by `MarkovDecisionProcess.__post_init__`: rank of
`transitions` (3) and `rewards` (2), squareness of the per-action blocks,
matching action and state counts, dtype equality, and per (action, state) row
sums within `1e-5` of 1.  The checks run in source order. -/
def mdpValidate (t r : NDArray) : Except MdpError Unit :=
  match t.data with
  | .d3 blocks =>
    if (blocks.headD []).length ≠ ((blocks.headD []).headD []).length then
      .error .notSquare
    else
      match r.data with
      | .d2 rrows =>
        if blocks.length ≠ rrows.length then .error .actionsMismatch
        else if (blocks.headD []).length ≠ (rrows.headD []).length then
          .error .statesMismatch
        else if t.dtype ≠ r.dtype then .error (.dtypeMismatch t.dtype r.dtype)
        else
          match mdpFirstBadAction 0 blocks with
          | some (a, bad) => .error (.badRows a bad)
          | none => .ok ()
      | _ => .error .rewNdim
  | _ => .error .transNdim

/-- Validated immutable MDP record (`@dataclasses.dataclass(frozen=True)`). -/
structure MarkovDecisionProcess where
  transitions : NDArray
  rewards : NDArray
  name : String
deriving DecidableEq, Repr

/-- Constructing a `MarkovDecisionProcess`: `__post_init__` validation runs
synchronously; on violation the error is raised and no instance is produced. -/
def mkMarkovDecisionProcess (t r : NDArray) (name : String) :
    Except MdpError MarkovDecisionProcess :=
  match mdpValidate t r with
  | .ok _ => .ok ⟨t, r, name⟩
  | .error e => .error e

/-! ### Basic lemmas about `badIndicesFrom` -/

theorem badIndicesFrom_eq_nil_iff (p : ℚ → Prop) [DecidablePred p] :
    ∀ (n : Nat) (xs : List ℚ),
      badIndicesFrom p n xs = [] ↔ ∀ x ∈ xs, ¬ p x := by
  intro n xs
  induction xs generalizing n with
  | nil => simp [badIndicesFrom]
  | cons x xs ih =>
    by_cases hx : p x
    · simp [badIndicesFrom, hx]
    · simp [badIndicesFrom, hx, ih]

theorem mem_badIndicesFrom (p : ℚ → Prop) [DecidablePred p] :
    ∀ (n : Nat) (xs : List ℚ) (i : Nat),
      i ∈ badIndicesFrom p n xs ↔
        ∃ j, j < xs.length ∧ i = n + j ∧ p (xs.getD j 0) := by
  intro n xs
  induction xs generalizing n with
  | nil => simp [badIndicesFrom]
  | cons x xs ih =>
    intro i
    by_cases hx : p x
    · simp only [badIndicesFrom, if_pos hx, List.mem_cons, ih]
      constructor
      · rintro (rfl | ⟨j, hj, rfl, hp⟩)
        · exact ⟨0, by simp, by simp, by simpa using hx⟩
        · exact ⟨j + 1, by simpa using hj, by omega, by simpa using hp⟩
      · rintro ⟨j, hj, rfl, hp⟩
        cases j with
        | zero => left; omega
        | succ j =>
          right
          exact ⟨j, by simpa using hj, by omega, by simpa using hp⟩
    · simp only [badIndicesFrom, if_neg hx, ih]
      constructor
      · rintro ⟨j, hj, rfl, hp⟩
        exact ⟨j + 1, by simpa using hj, by omega, by simpa using hp⟩
      · rintro ⟨j, hj, rfl, hp⟩
        cases j with
        | zero => exact absurd (by simpa using hp) hx
        | succ j =>
          exact ⟨j, by simpa using hj, by omega, by simpa using hp⟩

/-! ### Characterisation of the validators on well-shaped inputs -/

theorem mrpValidate_eq_of_wellShaped (rows : List (List ℚ)) (rew : List ℚ)
    (dt : DType)
    (hrect : ∀ row ∈ rows, row.length = rows.length)
    (hlen : rew.length = rows.length) :
    mrpValidate ⟨.d2 rows, dt⟩ ⟨.d1 rew, dt⟩ =
      (match badIndicesFrom (fun s => s ≠ 1) 0 (rows.map List.sum) with
       | [] => .ok ()
       | bad => .error (.badRows bad)) := by
  have hsq : rows.length = (rows.headD []).length := by
    cases rows with
    | nil => rfl
    | cons r rs => exact (hrect r (List.mem_cons_self r rs)).symm
  simp only [mrpValidate, ne_eq, ite_not]
  rw [if_pos hsq, if_pos hlen.symm, if_true, map_sumQ]

theorem mdpValidate_eq_of_wellShaped (blocks : List (List (List ℚ)))
    (rrows : List (List ℚ)) (dt : DType) (S : Nat)
    (hb : ∀ b ∈ blocks, b.length = S)
    (hrow : ∀ b ∈ blocks, ∀ row ∈ b, row.length = S)
    (hr : rrows.length = blocks.length)
    (hrr : ∀ rr ∈ rrows, rr.length = S) :
    mdpValidate ⟨.d3 blocks, dt⟩ ⟨.d2 rrows, dt⟩ =
      (match mdpFirstBadAction 0 blocks with
       | some (a, bad) => .error (.badRows a bad)
       | none => .ok ()) := by
  have hsq : (blocks.headD []).length = ((blocks.headD []).headD []).length := by
    cases blocks with
    | nil => rfl
    | cons b bs =>
      simp only [List.headD_cons]
      cases b with
      | nil =>
        have : (0 : Nat) = S := by
          simpa using hb [] (List.mem_cons_self [] bs)
        simp [this.symm]
      | cons row rest =>
        have h1 : (row :: rest).length = S :=
          hb (row :: rest) (List.mem_cons_self _ bs)
        have h2 : row.length = S :=
          hrow (row :: rest) (List.mem_cons_self _ bs) row
            (List.mem_cons_self row rest)
        simp only [List.headD_cons]
        omega
  have hst : (blocks.headD []).length = (rrows.headD []).length := by
    cases blocks with
    | nil =>
      have : rrows = [] := List.eq_nil_of_length_eq_zero (by simpa using hr)
      simp [this]
    | cons b bs =>
      cases rrows with
      | nil => simp at hr
      | cons rr rs =>
        have h1 : b.length = S := hb b (List.mem_cons_self b bs)
        have h2 : rr.length = S := hrr rr (List.mem_cons_self rr rs)
        simp only [List.headD_cons]
        omega
  simp only [mdpValidate, ne_eq, ite_not]
  rw [if_pos hsq, if_pos hr.symm, if_pos hst, if_true]

theorem mdpFirstBadAction_eq_none_iff :
    ∀ (a : Nat) (blocks : List (List (List ℚ))),
      mdpFirstBadAction a blocks = none ↔ ∀ b ∈ blocks, mdpBadStates b = [] := by
  intro a blocks
  induction blocks generalizing a with
  | nil => simp [mdpFirstBadAction]
  | cons b bs ih =>
    cases hbad : mdpBadStates b with
    | nil => simp [mdpFirstBadAction, hbad, ih]
    | cons i l =>
      simp only [mdpFirstBadAction, hbad, List.mem_cons]
      constructor
      · intro h; exact absurd h (by simp)
      · intro h
        have := h b (Or.inl rfl)
        rw [hbad] at this
        exact absurd this (by simp)

theorem mdpFirstBadAction_eq_some :
    ∀ (a₀ : Nat) (blocks : List (List (List ℚ))) (a : Nat) (bad : List Nat),
      mdpFirstBadAction a₀ blocks = some (a, bad) →
        ∃ j, j < blocks.length ∧ a = a₀ + j ∧
          bad = mdpBadStates (blocks.getD j []) ∧ bad ≠ [] ∧
          ∀ k, k < j → mdpBadStates (blocks.getD k []) = [] := by
  intro a₀ blocks
  induction blocks generalizing a₀ with
  | nil => intro a bad h; simp [mdpFirstBadAction] at h
  | cons b bs ih =>
    intro a bad h
    cases hbad : mdpBadStates b with
    | nil =>
      rw [mdpFirstBadAction, hbad] at h
      obtain ⟨j, hj, ha, hb2, hne, hprev⟩ := ih (a₀ + 1) a bad h
      refine ⟨j + 1, by simpa using hj, by omega, by simpa using hb2, hne, ?_⟩
      intro k hk
      cases k with
      | zero => simpa using hbad
      | succ k => simpa using hprev k (by omega)
    | cons i l =>
      rw [mdpFirstBadAction, hbad] at h
      obtain ⟨rfl, rfl⟩ : a₀ = a ∧ i :: l = bad := by
        constructor <;> [exact congrArg Prod.fst (Option.some.inj h);
          exact congrArg Prod.snd (Option.some.inj h)]
      exact ⟨0, by simp, by omega, by simpa using hbad.symm,
        by rw [← hbad]; simp [hbad], by omega⟩

/-- C2: `MarkovRewardProcess` construction raises iff some transition row does
not sum to exactly 1 (no tolerance), for well-shaped inputs of matching
element type; every successfully constructed MRP has every row summing to
exactly 1.  Float entries are idealised as exact rationals, so the source's
`sums != 1.` comparison is exact equality. -/
theorem C2_mrp_error_iff_row_sums (rows : List (List ℚ)) (rew : List ℚ)
    (dt : DType) (nm : String)
    (hrect : ∀ row ∈ rows, row.length = rows.length)
    (hlen : rew.length = rows.length) :
    ((∃ e, mrpValidate ⟨.d2 rows, dt⟩ ⟨.d1 rew, dt⟩ = .error e) ↔
      ∃ row ∈ rows, row.sum ≠ 1) ∧
    (∀ m, mkMarkovRewardProcess ⟨.d2 rows, dt⟩ ⟨.d1 rew, dt⟩ nm = .ok m →
      ∀ row ∈ rows, row.sum = 1) := by
  have he := mrpValidate_eq_of_wellShaped rows rew dt hrect hlen
  cases hbad : badIndicesFrom (fun s => s ≠ 1) 0 (rows.map List.sum) with
  | nil =>
    rw [hbad] at he
    have hall : ∀ row ∈ rows, row.sum = 1 := by
      have := (badIndicesFrom_eq_nil_iff (fun s => s ≠ 1) 0
        (rows.map List.sum)).1 hbad
      intro row hrow
      have := this row.sum (List.mem_map_of_mem List.sum hrow)
      simpa using this
    constructor
    · constructor
      · rintro ⟨e, hco⟩
        rw [he] at hco
        exact absurd hco (by simp)
      · rintro ⟨row, hrow, hne⟩
        exact absurd (hall row hrow) hne
    · intro m _ row hrow
      exact hall row hrow
  | cons i l =>
    rw [hbad] at he
    have hnotall : ¬ ∀ row ∈ rows, row.sum = 1 := by
      intro hall
      have : badIndicesFrom (fun s => s ≠ 1) 0 (rows.map List.sum) = [] := by
        rw [badIndicesFrom_eq_nil_iff]
        intro x hx
        obtain ⟨row, hrow, rfl⟩ := List.mem_map.1 hx
        simpa using hall row hrow
      rw [hbad] at this
      exact absurd this (by simp)
    constructor
    · constructor
      · intro _
        by_contra hno
        push_neg at hno
        exact hnotall hno
      · intro _
        exact ⟨_, he⟩
    · intro m hm
      rw [mkMarkovRewardProcess, he] at hm
      exact absurd hm (by simp)

theorem mem_mdpBadStates (b : List (List ℚ)) (i : Nat) :
    i ∈ mdpBadStates b ↔
      i < b.length ∧ |1 - (b.getD i []).sum| > transitionSumTolerance := by
  rw [mdpBadStates, mem_badIndicesFrom]
  constructor
  · rintro ⟨j, hj, rfl, hp⟩
    have hjb : j < b.length := by simpa using hj
    rw [List.getD_eq_getElem (b.map sumQ) 0 hj, List.getElem_map,
      absQ_eq_abs, qsub_eq, sumQ_eq_sum] at hp
    simp only [Nat.zero_add]
    refine ⟨hjb, ?_⟩
    rw [List.getD_eq_getElem b [] hjb]
    exact hp
  · rintro ⟨hi, hp⟩
    have hib : i < (b.map sumQ).length := by simpa using hi
    refine ⟨i, hib, by omega, ?_⟩
    rw [List.getD_eq_getElem (b.map sumQ) 0 hib, List.getElem_map,
      absQ_eq_abs, qsub_eq, sumQ_eq_sum]
    rw [List.getD_eq_getElem b [] hi] at hp
    exact hp

theorem mdpBadStates_eq_nil_iff (b : List (List ℚ)) :
    mdpBadStates b = [] ↔
      ∀ row ∈ b, |1 - row.sum| ≤ transitionSumTolerance := by
  rw [mdpBadStates, badIndicesFrom_eq_nil_iff]
  constructor
  · intro h row hrowb
    have := h (sumQ row) (List.mem_map_of_mem sumQ hrowb)
    simpa [absQ_eq_abs, qsub_eq, sumQ_eq_sum, not_lt] using this
  · intro h x hx
    obtain ⟨row, hrowb, rfl⟩ := List.mem_map.1 hx
    simpa [absQ_eq_abs, qsub_eq, sumQ_eq_sum, not_lt] using h row hrowb

/-- C3: `MarkovDecisionProcess` construction succeeds iff every (action,
state) transition row sums to 1 within absolute tolerance `1e-5`, and on a
violation the raised error carries an offending action index (the first one,
in enumeration order) together with exactly the list of offending state
indices for that action. -/
theorem C3_mdp_tolerance_and_error_report (blocks : List (List (List ℚ)))
    (rrows : List (List ℚ)) (dt : DType) (S : Nat) (nm : String)
    (hb : ∀ b ∈ blocks, b.length = S)
    (hrow : ∀ b ∈ blocks, ∀ row ∈ b, row.length = S)
    (hr : rrows.length = blocks.length)
    (hrr : ∀ rr ∈ rrows, rr.length = S) :
    ((∃ m, mkMarkovDecisionProcess ⟨.d3 blocks, dt⟩ ⟨.d2 rrows, dt⟩ nm = .ok m) ↔
      ∀ b ∈ blocks, ∀ row ∈ b, |1 - row.sum| ≤ transitionSumTolerance) ∧
    (∀ e, mdpValidate ⟨.d3 blocks, dt⟩ ⟨.d2 rrows, dt⟩ = .error e →
      ∃ a, a < blocks.length ∧
        e = .badRows a (mdpBadStates (blocks.getD a [])) ∧
        mdpBadStates (blocks.getD a []) ≠ [] ∧
        (∀ k, k < a → mdpBadStates (blocks.getD k []) = []) ∧
        (∀ i, i ∈ mdpBadStates (blocks.getD a []) ↔
          i < (blocks.getD a []).length ∧
            |1 - ((blocks.getD a []).getD i []).sum| > transitionSumTolerance)) := by
  have he := mdpValidate_eq_of_wellShaped blocks rrows dt S hb hrow hr hrr
  have hmem := mem_mdpBadStates
  have hnil := mdpBadStates_eq_nil_iff
  constructor
  · cases hfba : mdpFirstBadAction 0 blocks with
    | none =>
      rw [hfba] at he
      have hall := (mdpFirstBadAction_eq_none_iff 0 blocks).1 hfba
      constructor
      · intro _ b hbmem row hrowb
        have := (hnil b).1 (hall b hbmem)
        exact this row hrowb
      · intro _
        exact ⟨⟨⟨.d3 blocks, dt⟩, ⟨.d2 rrows, dt⟩, nm⟩, by
          rw [mkMarkovDecisionProcess, he]⟩
    | some p =>
      obtain ⟨a, bad⟩ := p
      rw [hfba] at he
      obtain ⟨j, hj, haj, hbadj, hne, hprev⟩ :=
        mdpFirstBadAction_eq_some 0 blocks a bad hfba
      constructor
      · rintro ⟨m, hm⟩
        rw [mkMarkovDecisionProcess, he] at hm
        exact absurd hm (by simp)
      · intro hall
        exfalso
        apply hne
        rw [hbadj, hnil]
        intro row hrowb
        have hmemb : blocks.getD j [] ∈ blocks := by
          rw [List.getD_eq_getElem blocks [] hj]
          exact List.getElem_mem hj
        exact hall _ hmemb row hrowb
  · intro e herr
    cases hfba : mdpFirstBadAction 0 blocks with
    | none =>
      rw [hfba] at he
      rw [he] at herr
      exact absurd herr (by simp)
    | some p =>
      obtain ⟨a, bad⟩ := p
      rw [hfba] at he
      rw [he] at herr
      obtain ⟨j, hj, haj, hbadj, hne, hprev⟩ :=
        mdpFirstBadAction_eq_some 0 blocks a bad hfba
      have hae : a = j := by omega
      subst hae
      have hbe : e = .badRows a (mdpBadStates (blocks.getD a [])) := by
        rw [← hbadj]
        exact (Except.error.inj herr).symm ▸ rfl
      refine ⟨a, hj, hbe, by rw [← hbadj]; exact hne, hprev, fun i => hmem _ i⟩

theorem C2_mrp_error_iff_row_sums_witness :
    ((∃ e, mrpValidate ⟨.d2 [[(1 : ℚ)/2, 1/2], [1, 0]], .float32⟩
        ⟨.d1 [0, 0], .float32⟩ = .error e) ↔
      ∃ row ∈ [[(1 : ℚ)/2, 1/2], [1, 0]], row.sum ≠ 1) ∧
    (∀ m, mkMarkovRewardProcess ⟨.d2 [[(1 : ℚ)/2, 1/2], [1, 0]], .float32⟩
        ⟨.d1 [0, 0], .float32⟩ "mrp" = .ok m →
      ∀ row ∈ [[(1 : ℚ)/2, 1/2], [1, 0]], row.sum = 1) :=
  C2_mrp_error_iff_row_sums [[(1 : ℚ)/2, 1/2], [1, 0]] [0, 0] .float32 "mrp"
    (by decide) (by decide)

theorem C3_mdp_tolerance_and_error_report_witness :
    ((∃ m, mkMarkovDecisionProcess ⟨.d3 [[[(1 : ℚ), 0], [0, 1]]], .float32⟩
        ⟨.d2 [[(0 : ℚ), 0]], .float32⟩ "mdp" = .ok m) ↔
      ∀ b ∈ [[[(1 : ℚ), 0], [0, 1]]], ∀ row ∈ b,
        |1 - row.sum| ≤ transitionSumTolerance) ∧
    (∀ e, mdpValidate ⟨.d3 [[[(1 : ℚ), 0], [0, 1]]], .float32⟩
        ⟨.d2 [[(0 : ℚ), 0]], .float32⟩ = .error e →
      ∃ a, a < [[[(1 : ℚ), 0], [0, 1]]].length ∧
        e = .badRows a (mdpBadStates ([[[(1 : ℚ), 0], [0, 1]]].getD a [])) ∧
        mdpBadStates ([[[(1 : ℚ), 0], [0, 1]]].getD a []) ≠ [] ∧
        (∀ k, k < a → mdpBadStates ([[[(1 : ℚ), 0], [0, 1]]].getD k []) = []) ∧
        (∀ i, i ∈ mdpBadStates ([[[(1 : ℚ), 0], [0, 1]]].getD a []) ↔
          i < ([[[(1 : ℚ), 0], [0, 1]]].getD a []).length ∧
            |1 - (([[[(1 : ℚ), 0], [0, 1]]].getD a []).getD i []).sum| >
              transitionSumTolerance)) :=
  C3_mdp_tolerance_and_error_report [[[(1 : ℚ), 0], [0, 1]]] [[(0 : ℚ), 0]]
    .float32 2 "mdp" (by decide) (by decide) (by decide) (by decide)

/-! ### GARET generator (`environments/garet.py`)

The generator's randomness comes from `jax.random` (PRNGKey / split / choice /
uniform / normal), an external collaborator.  Modelled from the spec: a
reproducible random stream is derived from the integer seed; per (state,
action) pair, `branching_factor` distinct next states are chosen without
replacement; `branching_factor` independent magnitudes are drawn (idealised
here as exact rationals in the open interval (0,1): a real uniform draw from
[0,1) is almost surely positive, and the spec asserts the drawn magnitudes
normalise to sum to 1); and `branching_factor` real-valued rewards of
unbounded sign are drawn.  The concrete stream below is an arbitrary
deterministic hash — the claims depend only on determinism and on the
documented contracts, never on the distribution. -/

/-- Deterministic mixing function standing in for the counter-based jax PRNG:
a 64-bit linear-congruential style hash of a key and a counter. -/
def prngMix (k i : Nat) : Nat :=
  (k * 6364136223846793005 + i * 1442695040888963407 + 1442695040888963407) % (2 ^ 64)

/-- Modelled from the spec: `jax.random.PRNGKey(seed)`, the root of the
reproducible random stream. -/
def jaxPRNGKey (seed : Nat) : Nat := prngMix seed 0

/-- Modelled from the spec: the `i`-th key of `jax.random.split(key, n)`
(each split key is a deterministic function of the parent key and the index). -/
def jaxSplit (key i : Nat) : Nat := prngMix key (i + 1)

/-- Per-(state, action) key: `new_keys[1:]` of `split(rng_key, S*A + 1)`,
indexed by the flattened pair index `p = s*A + a`. -/
def garetStateKey (seed p : Nat) : Nat := jaxSplit (jaxPRNGKey seed) (p + 1)

/-- Key retained after the first split (`rng_key = new_keys[0]`). -/
def garetKey1 (seed : Nat) : Nat := jaxSplit (jaxPRNGKey seed) 0

/-- `rng_key, next_state_probs_key = jax.random.split(rng_key)`: the
subkey used for the transition-probability draws. -/
def garetProbsKey (seed : Nat) : Nat := jaxSplit (garetKey1 seed) 1

/-- The key retained after the second split. -/
def garetKey2 (seed : Nat) : Nat := jaxSplit (garetKey1 seed) 0

/-- `rng_key, transition_reward_key = jax.random.split(rng_key)`: the subkey
used for the reward draws. -/
def garetRewardKey (seed : Nat) : Nat := jaxSplit (garetKey2 seed) 1

/-- The key left in `rng_key` at the end of `create`; it appears in the
generated MDP's name (`K:{rng_key}`). -/
def garetFinalKey (seed : Nat) : Nat := jaxSplit (garetKey2 seed) 0

/-- Modelled from the spec: one `jax.random.uniform` magnitude draw, idealised
as an exact rational in (0,1) (a real uniform draw from [0,1) is almost surely
positive). -/
def uniformQ (key i : Nat) : ℚ := qdiv ((prngMix key i % 1000 + 1 : Nat) : ℚ) 1001

/-- Modelled from the spec: one `jax.random.normal` draw — a real-valued
deterministic pseudorandom value of unbounded sign, idealised as a rational. -/
def normalQ (key i : Nat) : ℚ := qdiv (qsub ((prngMix key i % 2001 : Nat) : ℚ) 1000) 500

/-- Modelled from the spec: `jax.random.choice(key, n, (k,), replace=False)` —
`k` distinct draws without replacement from a pool, each drawn element being
removed from the pool before the next draw. -/
def chooseDistinct : Nat → List Nat → Nat → List Nat
  | _, _, 0 => []
  | key, pool, k + 1 =>
    match pool with
    | [] => []
    | q :: qs =>
      let idx := prngMix key 0 % (q :: qs).length
      let x := (q :: qs).getD idx 0
      x :: chooseDistinct (prngMix key 1) ((q :: qs).erase x) k

/-- Next-state indices for flattened (state, action) pair `p`:
`jax.random.choice(new_state_keys[p], num_states, (branching_factor,), False)`. -/
def garetNextStates (seed S B p : Nat) : List Nat :=
  chooseDistinct (garetStateKey seed p) (List.range S) B

/-- Row `p` of `next_state_probs_flat_unnormalized`: `branching_factor`
uniform magnitude draws for flattened (state, action) pair `p`. -/
def garetProbsUnnormalized (seed B p : Nat) : List ℚ :=
  (List.range B).map (fun k => uniformQ (garetProbsKey seed) (p * B + k))

/-- The full `(S*A, B)` matrix `next_state_probs_flat_unnormalized`
(`jax.random.uniform(key, shape=(num_states * num_actions,
branching_factor))`). -/
def garetProbsUnnormalizedMatrix (seed S A B : Nat) : List (List ℚ) :=
  (List.range (S * A)).map (fun p => garetProbsUnnormalized seed B p)

/-- `jnp.sum(m, axis=-1)` on a rank-2 array: the vector of row sums. -/
def jnpSumLastAxis (m : List (List ℚ)) : List ℚ := m.map sumQ

/-- `jnp.repeat(xs, k)`: each element repeated `k` times consecutively. -/
def jnpRepeat (xs : List ℚ) (k : Nat) : List ℚ :=
  xs.flatMap (fun x => List.replicate k x)

/-- Errors `garet.create` raises: `reshapeNegOne` models the ValueError from
`next_state_prob_sums.reshape((-1, branching_factor))` when the `-1`
dimension cannot be resolved (the other dimension is 0, or does not divide
the array size); `invalidMdp` wraps a `MarkovDecisionProcess.__post_init__`
validation error. -/
inductive GaretError where
  | reshapeNegOne
  | invalidMdp (e : MdpError)
deriving DecidableEq, Repr

/-- `xs.reshape((-1, cols))`: resolves the `-1` dimension as
`xs.length / cols`, raising when `cols` is 0 or does not divide the array
size (numpy cannot infer the unknown dimension then). -/
def jnpReshapeNegOne (xs : List ℚ) (cols : Nat) :
    Except GaretError (List (List ℚ)) :=
  if cols = 0 ∨ xs.length % cols ≠ 0 then .error .reshapeNegOne
  else .ok ((List.range (xs.length / cols)).map (fun r =>
    (List.range cols).map (fun c => xs.getD (r * cols + c) 0)))

/-- Elementwise division of two same-shape rank-2 arrays. -/
def matDivide (a b : List (List ℚ)) : List (List ℚ) :=
  (a.zip b).map (fun rows =>
    (rows.1.zip rows.2).map (fun xy => qdiv xy.1 xy.2))

/-- The normalization pipeline of `garet.py` lines 42-48: per-row sums of the
unnormalized magnitudes (`jnp.sum(..., axis=-1)`), repeated
`branching_factor` times (`jnp.repeat`), reshaped to
`(-1, branching_factor)` — which raises when `branching_factor = 0` — and
finally the elementwise division
`next_state_probs_flat_unnormalized / next_state_prob_sums`. -/
def garetNextStateProbsFlat (seed S A B : Nat) :
    Except GaretError (List (List ℚ)) :=
  (jnpReshapeNegOne
      (jnpRepeat (jnpSumLastAxis (garetProbsUnnormalizedMatrix seed S A B)) B)
      B).map
    (fun sums => matDivide (garetProbsUnnormalizedMatrix seed S A B) sums)

/-- Row `p` of `next_state_probs_flat` in closed form: the unnormalized
magnitudes of the pair divided by their row sum.  For `B ≥ 1` this equals
row `p` of the `garetNextStateProbsFlat` pipeline
(`garetNextStateProbsFlat_pos`). -/
def garetProbs (seed B p : Nat) : List ℚ :=
  (garetProbsUnnormalized seed B p).map
    (fun x => qdiv x (sumQ (garetProbsUnnormalized seed B p)))

/-- Row `p` of `transition_expected_rewards_flat`: `branching_factor` normal
draws for flattened (state, action) pair `p`. -/
def garetRewardDraws (seed B p : Nat) : List ℚ :=
  (List.range B).map (fun k => normalQ (garetRewardKey seed) (p * B + k))

/-- First-match association lookup used by `scatterRow`. -/
def lookupVal : List Nat → List ℚ → Nat → ℚ
  | [], _, _ => 0
  | _, [], _ => 0
  | i :: is, v :: vs, j => if j = i then v else lookupVal is vs j

/-- One row of the `.at[first_dim_indices, next_states].set(values)` scatter:
position `j` holds the value whose target index is `j`, and `0` elsewhere
(the matrices start as `jnp.zeros`).  The scattered indices of a row are the
`choice(..., replace=False)` draws and hence distinct, so jax's scatter
semantics coincide with first-match lookup. -/
def scatterRow (S : Nat) (idxs : List Nat) (vals : List ℚ) : List ℚ :=
  (List.range S).map (fun j => lookupVal idxs vals j)

/-- Row `p` of `transition_matrix_flat` after the scatter. -/
def garetTransitionRow (seed S B p : Nat) : List ℚ :=
  scatterRow S (garetNextStates seed S B p) (garetProbs seed B p)

/-- Row `p` of `reward_matrix_flat` after the scatter. -/
def garetRewardRow (seed S B p : Nat) : List ℚ :=
  scatterRow S (garetNextStates seed S B p) (garetRewardDraws seed B p)

/-- `jnp.dot` of two equal-length vectors. -/
def dotList (xs ys : List ℚ) : ℚ :=
  sumQ ((xs.zip ys).map (fun q => qmul q.1 q.2))

/-- Entry `p` of the marginalised reward matrix:
`jax.vmap(jax.vmap(jnp.dot))(transition_matrix, reward_matrix)` collapses the
`S×S` reward block of each (state, action) pair to the expected reward. -/
def garetRewardMarginal (seed S B p : Nat) : ℚ :=
  dotList (garetTransitionRow seed S B p) (garetRewardRow seed S B p)

/-- The `A×S×S` transition tensor: `reshape` of the flat `(S*A, S)` matrix to
`(S, A, S)` followed by `swapaxes(0, 1)`, so entry `[a][s]` is flat row
`s*A + a`. -/
def garetTransitionsData (seed S A B : Nat) : List (List (List ℚ)) :=
  (List.range A).map (fun a =>
    (List.range S).map (fun s => garetTransitionRow seed S B (s * A + a)))

/-- The `A×S` marginalised reward matrix after `swapaxes(0, 1)`. -/
def garetRewardsData (seed S A B : Nat) : List (List ℚ) :=
  (List.range A).map (fun a =>
    (List.range S).map (fun s => garetRewardMarginal seed S B (s * A + a)))

/-- The internal transition tensor, built as `jnp.zeros(..., dtype=jnp.float32)`
and filled by float32 arithmetic: its dtype is `float32` regardless of the
requested element type. -/
def garetTransitionMatrix32 (seed S A B : Nat) : NDArray :=
  ⟨.d3 (garetTransitionsData seed S A B), .float32⟩

/-- The internal marginalised reward matrix, likewise float32. -/
def garetRewardMatrix32 (seed S A B : Nat) : NDArray :=
  ⟨.d2 (garetRewardsData seed S A B), .float32⟩

/-- `np.array(x, dtype=dtype)`: retags the array with the requested dtype.
The only dtypes in play are float32 and float64, and every float32 value is
exactly representable as float64, so under the exact-rational idealisation the
cast changes the dtype tag and leaves the entry values unchanged. -/
def npCast (d : DType) (x : NDArray) : NDArray := ⟨x.data, d⟩

/-- Name string of a generated instance:
`f'GARET S:{S} A:{A} B:{B} K:{rng_key} D:{dtype.__name__}'`. -/
def garetName (seed S A B : Nat) (d : DType) : String :=
  "GARET S:" ++ toString S ++ " A:" ++ toString A ++ " B:" ++ toString B ++
    " K:" ++ toString (garetFinalKey seed) ++ " D:" ++ dtypeName d

/-- The `A×S×S` transition tensor built from a given `next_state_probs_flat`
matrix: scatter row `p` of the probabilities at the chosen next states, then
reshape the flat `(S*A, S)` matrix to `(S, A, S)` and `swapaxes(0, 1)`, so
entry `[a][s]` is flat row `s*A + a`. -/
def garetTransitionsDataOf (seed S A B : Nat)
    (probsFlat : List (List ℚ)) : List (List (List ℚ)) :=
  (List.range A).map (fun a =>
    (List.range S).map (fun s =>
      scatterRow S (garetNextStates seed S B (s * A + a))
        (probsFlat.getD (s * A + a) [])))

/-- The `A×S` marginalised reward matrix built from a given
`next_state_probs_flat` matrix (dot of each scattered transition row with the
corresponding scattered reward row, then `swapaxes(0, 1)`). -/
def garetRewardsDataOf (seed S A B : Nat)
    (probsFlat : List (List ℚ)) : List (List ℚ) :=
  (List.range A).map (fun a =>
    (List.range S).map (fun s =>
      dotList
        (scatterRow S (garetNextStates seed S B (s * A + a))
          (probsFlat.getD (s * A + a) []))
        (garetRewardRow seed S B (s * A + a))))

/-- `garet.create(seed, num_states, num_actions, branching_factor, dtype)`:
normalizes the transition probabilities through the sum/repeat/reshape/divide
pipeline — which raises `reshapeNegOne` at `branching_factor = 0`, before any
matrices are built — then scatters them into the float32 transition and
reward matrices, casts to the requested dtype and constructs the validated
`MarkovDecisionProcess` (a validation error propagates as `invalidMdp`). -/
def create (seed S A B : Nat) (d : DType) :
    Except GaretError MarkovDecisionProcess :=
  match garetNextStateProbsFlat seed S A B with
  | .error e => .error e
  | .ok probsFlat =>
    match mkMarkovDecisionProcess
        (npCast d ⟨.d3 (garetTransitionsDataOf seed S A B probsFlat), .float32⟩)
        (npCast d ⟨.d2 (garetRewardsDataOf seed S A B probsFlat), .float32⟩)
        (garetName seed S A B d) with
    | .ok m => .ok m
    | .error e => .error (.invalidMdp e)

/-! ### Properties of the GARET generator -/

theorem chooseDistinct_subset :
    ∀ (k key : Nat) (pool : List Nat), chooseDistinct key pool k ⊆ pool := by
  intro k
  induction k with
  | zero => intro key pool; simp [chooseDistinct]
  | succ k ih =>
    intro key pool
    cases pool with
    | nil => simp [chooseDistinct]
    | cons q qs =>
      simp only [chooseDistinct]
      intro y hy
      rcases List.mem_cons.1 hy with h1 | hy2
      · have hidx : prngMix key 0 % (q :: qs).length < (q :: qs).length :=
          Nat.mod_lt _ (by simp)
        rw [h1, List.getD_eq_getElem _ 0 hidx]
        exact List.getElem_mem hidx
      · exact List.erase_subset _ _ (ih (prngMix key 1) _ hy2)

theorem chooseDistinct_nodup :
    ∀ (k key : Nat) (pool : List Nat), pool.Nodup →
      (chooseDistinct key pool k).Nodup := by
  intro k
  induction k with
  | zero => intro key pool _; simp [chooseDistinct]
  | succ k ih =>
    intro key pool hnd
    cases pool with
    | nil => simp [chooseDistinct]
    | cons q qs =>
      simp only [chooseDistinct]
      rw [List.nodup_cons]
      refine ⟨?_, ih _ _ (List.Nodup.erase _ hnd)⟩
      intro hmem
      exact hnd.not_mem_erase (chooseDistinct_subset k (prngMix key 1) _ hmem)

theorem chooseDistinct_length :
    ∀ (k key : Nat) (pool : List Nat), k ≤ pool.length →
      (chooseDistinct key pool k).length = k := by
  intro k
  induction k with
  | zero => intro key pool _; simp [chooseDistinct]
  | succ k ih =>
    intro key pool hk
    cases pool with
    | nil => simp at hk
    | cons q qs =>
      simp only [chooseDistinct, List.length_cons]
      have hidx : prngMix key 0 % (qs.length + 1) < qs.length + 1 :=
        Nat.mod_lt _ (by omega)
      have hxmem : (q :: qs).getD (prngMix key 0 % (qs.length + 1)) 0 ∈ q :: qs := by
        rw [List.getD_eq_getElem _ 0 (by simpa using hidx)]
        exact List.getElem_mem (by simpa using hidx)
      have herase : k ≤
          ((q :: qs).erase
            ((q :: qs).getD (prngMix key 0 % (qs.length + 1)) 0)).length := by
        rw [List.length_erase_of_mem hxmem]
        simp only [List.length_cons] at hk ⊢
        omega
      rw [ih _ _ herase]

theorem garetNextStates_nodup (seed S B p : Nat) :
    (garetNextStates seed S B p).Nodup :=
  chooseDistinct_nodup B _ _ (List.nodup_range S)

theorem garetNextStates_lt (seed S B p : Nat) :
    ∀ y ∈ garetNextStates seed S B p, y < S := by
  intro y hy
  exact List.mem_range.1 (chooseDistinct_subset B _ _ hy)

theorem garetNextStates_length (seed S B p : Nat) (h : B ≤ S) :
    (garetNextStates seed S B p).length = B :=
  chooseDistinct_length B _ _ (by simpa using h)

theorem uniformQ_pos (key i : Nat) : 0 < uniformQ key i := by
  rw [uniformQ, qdiv_eq]
  apply div_pos
  · exact_mod_cast Nat.succ_pos (prngMix key i % 1000)
  · norm_num

theorem garetProbsUnnormalized_length (seed B p : Nat) :
    (garetProbsUnnormalized seed B p).length = B := by
  simp [garetProbsUnnormalized]

theorem garetProbsUnnormalized_pos (seed B p : Nat) :
    ∀ x ∈ garetProbsUnnormalized seed B p, 0 < x := by
  intro x hx
  obtain ⟨k, _, rfl⟩ := List.mem_map.1 hx
  exact uniformQ_pos _ _

theorem sum_map_div (l : List ℚ) (c : ℚ) :
    (l.map (fun x => x / c)).sum = l.sum / c := by
  induction l with
  | nil => simp
  | cons x xs ih => rw [List.map_cons, List.sum_cons, List.sum_cons, ih, add_div]

theorem garetProbs_eq_div (seed B p : Nat) :
    garetProbs seed B p = (garetProbsUnnormalized seed B p).map
      (fun x => x / (garetProbsUnnormalized seed B p).sum) := by
  rw [garetProbs]
  simp only [qdiv_eq, sumQ_eq_sum]

theorem garetProbsUnnormalized_sum_pos (seed B p : Nat) (hB : 1 ≤ B) :
    0 < (garetProbsUnnormalized seed B p).sum := by
  apply List.sum_pos _ (garetProbsUnnormalized_pos seed B p)
  intro h0
  have := garetProbsUnnormalized_length seed B p
  rw [h0] at this
  simp at this
  omega

theorem garetProbs_length (seed B p : Nat) : (garetProbs seed B p).length = B := by
  rw [garetProbs_eq_div, List.length_map, garetProbsUnnormalized_length]

theorem garetProbs_sum (seed B p : Nat) (hB : 1 ≤ B) :
    (garetProbs seed B p).sum = 1 := by
  rw [garetProbs_eq_div, sum_map_div, div_self
    (ne_of_gt (garetProbsUnnormalized_sum_pos seed B p hB))]

theorem garetProbs_pos (seed B p : Nat) (hB : 1 ≤ B) :
    ∀ x ∈ garetProbs seed B p, 0 < x := by
  intro x hx
  rw [garetProbs_eq_div] at hx
  obtain ⟨u, hu, rfl⟩ := List.mem_map.1 hx
  exact div_pos (garetProbsUnnormalized_pos seed B p u hu)
    (garetProbsUnnormalized_sum_pos seed B p hB)

theorem lookupVal_eq_zero :
    ∀ (idxs : List Nat) (vals : List ℚ) (j : Nat), j ∉ idxs →
      lookupVal idxs vals j = 0 := by
  intro idxs
  induction idxs with
  | nil => intro vals j _; cases vals <;> rfl
  | cons i is ih =>
    intro vals j hj
    cases vals with
    | nil => rfl
    | cons v vs =>
      rw [lookupVal, if_neg (fun h => hj (by simp [h]))]
      exact ih vs j (fun h => hj (by simp [h]))

theorem lookupVal_mem :
    ∀ (idxs : List Nat) (vals : List ℚ) (j : Nat),
      idxs.length = vals.length → j ∈ idxs →
      lookupVal idxs vals j ∈ vals := by
  intro idxs
  induction idxs with
  | nil => intro vals j _ hj; simp at hj
  | cons i is ih =>
    intro vals j hlen hj
    cases vals with
    | nil => simp at hlen
    | cons v vs =>
      rw [lookupVal]
      by_cases h : j = i
      · rw [if_pos h]; simp
      · rw [if_neg h]
        have : j ∈ is := by
          rcases List.mem_cons.1 hj with h2 | h2
          · exact absurd h2 h
          · exact h2
        exact List.mem_cons_of_mem v (ih vs j (by simpa using hlen) this)

theorem scatterRow_length (S : Nat) (idxs : List Nat) (vals : List ℚ) :
    (scatterRow S idxs vals).length = S := by
  simp [scatterRow]

theorem sum_range_map_if (v : ℚ) (f : Nat → ℚ) :
    ∀ (S i : Nat), i < S →
      ((List.range S).map (fun j => if j = i then v else f j)).sum
        = v - f i + ((List.range S).map f).sum := by
  intro S
  induction S with
  | zero => intro i hi; omega
  | succ S ihS =>
    intro i hi
    rw [List.range_succ, List.map_append, List.map_append, List.sum_append,
      List.sum_append]
    rcases Nat.lt_or_ge i S with hlt | hge
    · rw [ihS i hlt]
      simp only [List.map_cons, List.map_nil, List.sum_cons, List.sum_nil]
      rw [if_neg (by omega : ¬ S = i)]
      ring
    · have hiS : i = S := by omega
      subst hiS
      have hmap : (List.range i).map (fun j => if j = i then v else f j)
          = (List.range i).map f := by
        apply List.map_congr_left
        intro a ha
        exact if_neg (by have := List.mem_range.1 ha; omega)
      rw [hmap]
      simp only [List.map_cons, List.map_nil, List.sum_cons, List.sum_nil]
      rw [if_true]
      ring

theorem scatterRow_sum :
    ∀ (idxs : List Nat) (vals : List ℚ) (S : Nat), idxs.Nodup →
      (∀ i ∈ idxs, i < S) → idxs.length = vals.length →
      (scatterRow S idxs vals).sum = vals.sum := by
  intro idxs
  induction idxs with
  | nil =>
    intro vals S _ _ hlen
    have hv : vals = [] := List.eq_nil_of_length_eq_zero (by simpa using hlen.symm)
    subst hv
    rw [scatterRow]
    apply List.sum_eq_zero
    intro x hx
    obtain ⟨j, _, rfl⟩ := List.mem_map.1 hx
    rfl
  | cons i is ih =>
    intro vals S hnd hb hlen
    cases vals with
    | nil => simp at hlen
    | cons v vs =>
      rw [scatterRow]
      have heq : ∀ j ∈ List.range S,
          lookupVal (i :: is) (v :: vs) j = if j = i then v else lookupVal is vs j := by
        intro j _
        rfl
      rw [List.map_congr_left heq,
        sum_range_map_if v (lookupVal is vs) S i (hb i (by simp))]
      have hzero : lookupVal is vs i = 0 :=
        lookupVal_eq_zero is vs i (List.nodup_cons.1 hnd).1
      have hrest : ((List.range S).map (lookupVal is vs)).sum = vs.sum := by
        have := ih vs S (List.nodup_cons.1 hnd).2
          (fun x hx => hb x (List.mem_cons_of_mem i hx)) (by simpa using hlen)
        simpa [scatterRow] using this
      rw [hzero, hrest, List.sum_cons]
      ring

/-- Count of non-zero entries of a vector (`np.count_nonzero` semantics,
used to state the sparsity property). -/
def countNonzero (xs : List ℚ) : Nat := xs.countP (fun x => decide (x ≠ 0))

theorem countP_or_disjoint {α : Type} (p q : α → Bool) :
    ∀ l : List α, (∀ a ∈ l, ¬(p a = true ∧ q a = true)) →
      l.countP (fun a => p a || q a) = l.countP p + l.countP q := by
  intro l
  induction l with
  | nil => intro _; simp
  | cons x xs ih =>
    intro h
    rw [List.countP_cons, List.countP_cons, List.countP_cons,
      ih (fun a ha => h a (List.mem_cons_of_mem x ha))]
    by_cases hp : p x = true
    · have hq : ¬ q x = true := fun hq => h x (by simp) ⟨hp, hq⟩
      simp [hp, hq]
      omega
    · by_cases hq : q x = true
      · simp [hp, hq]
        omega
      · simp [hp, hq]

theorem countP_mem_range :
    ∀ (idxs : List Nat) (S : Nat), idxs.Nodup → (∀ i ∈ idxs, i < S) →
      (List.range S).countP (fun j => decide (j ∈ idxs)) = idxs.length := by
  intro idxs
  induction idxs with
  | nil => intro S _ _; simp
  | cons i is ih =>
    intro S hnd hb
    have hiff : ∀ j ∈ List.range S,
        (decide (j ∈ i :: is) = true) ↔
          (((decide (j = i) : Bool) || (decide (j ∈ is) : Bool)) = true) := by
      intro j _
      simp [List.mem_cons]
    rw [List.countP_congr hiff,
      countP_or_disjoint (fun j => decide (j = i)) (fun j => decide (j ∈ is))
        (List.range S) ?hdisj]
    case hdisj =>
      intro a _
      rintro ⟨ha1, ha2⟩
      have hai : a = i := by simpa using ha1
      have has : a ∈ is := by simpa using ha2
      exact (List.nodup_cons.1 hnd).1 (hai ▸ has)
    have hcount1 : (List.range S).countP (fun j => decide (j = i)) = 1 := by
      have hieq : ∀ j ∈ List.range S,
          ((decide (j = i) : Bool) = true) ↔ ((j == i) = true) := by
        intro j _
        simp
      rw [List.countP_congr hieq]
      exact List.count_eq_one_of_mem (List.nodup_range S)
        (List.mem_range.2 (hb i (List.mem_cons_self i is)))
    rw [hcount1, ih S (List.nodup_cons.1 hnd).2
      (fun x hx => hb x (List.mem_cons_of_mem i hx))]
    simp [Nat.add_comm]

theorem scatterRow_countNonzero (S : Nat) (idxs : List Nat) (vals : List ℚ)
    (hnd : idxs.Nodup) (hb : ∀ i ∈ idxs, i < S)
    (hlen : idxs.length = vals.length) (hpos : ∀ v ∈ vals, 0 < v) :
    countNonzero (scatterRow S idxs vals) = idxs.length := by
  rw [countNonzero, scatterRow, List.countP_map]
  have hiff : ∀ j ∈ List.range S,
      ((decide (lookupVal idxs vals j ≠ 0) : Bool) = true) ↔
        ((decide (j ∈ idxs) : Bool) = true) := by
    intro j _
    simp only [decide_eq_true_eq]
    constructor
    · intro hne
      by_contra hnotmem
      exact hne (lookupVal_eq_zero idxs vals j hnotmem)
    · intro hmem
      exact ne_of_gt (hpos _ (lookupVal_mem idxs vals j hlen hmem))
  calc (List.range S).countP ((fun x => decide (x ≠ 0)) ∘ lookupVal idxs vals)
      = (List.range S).countP (fun j => decide (j ∈ idxs)) :=
        List.countP_congr hiff
    _ = idxs.length := countP_mem_range idxs S hnd hb

theorem garetTransitionRow_length (seed S B p : Nat) :
    (garetTransitionRow seed S B p).length = S := by
  rw [garetTransitionRow, scatterRow_length]

theorem garetTransitionRow_sum (seed S B p : Nat) (hB : 1 ≤ B) (hBS : B ≤ S) :
    (garetTransitionRow seed S B p).sum = 1 := by
  rw [garetTransitionRow,
    scatterRow_sum _ _ _ (garetNextStates_nodup seed S B p)
      (garetNextStates_lt seed S B p)
      (by rw [garetNextStates_length seed S B p hBS, garetProbs_length]),
    garetProbs_sum seed B p hB]

theorem garetTransitionRow_countNonzero (seed S B p : Nat) (hBS : B ≤ S) :
    countNonzero (garetTransitionRow seed S B p) = B := by
  rw [garetTransitionRow,
    scatterRow_countNonzero S _ _ (garetNextStates_nodup seed S B p)
      (garetNextStates_lt seed S B p)
      (by rw [garetNextStates_length seed S B p hBS, garetProbs_length]) ?hpos,
    garetNextStates_length seed S B p hBS]
  case hpos =>
    intro v hv
    have hBpos : 1 ≤ B := by
      by_contra h0
      have hB0 : B = 0 := by omega
      rw [hB0] at hv
      have : (garetProbs seed 0 p).length = 0 := garetProbs_length seed 0 p
      rw [List.length_eq_zero.1 this] at hv
      exact absurd hv (List.not_mem_nil v)
    exact garetProbs_pos seed B p hBpos v hv

theorem garetTransitionsData_length (seed S A B : Nat) :
    (garetTransitionsData seed S A B).length = A := by
  simp [garetTransitionsData]

theorem garetTransitionsData_block (seed S A B : Nat) :
    ∀ b ∈ garetTransitionsData seed S A B,
      b.length = S ∧ ∀ row ∈ b, row.length = S := by
  intro b hb
  obtain ⟨a, _, rfl⟩ := List.mem_map.1 hb
  refine ⟨by simp, ?_⟩
  intro row hrow
  obtain ⟨i, _, rfl⟩ := List.mem_map.1 hrow
  exact garetTransitionRow_length seed S B _

theorem garetTransitionsData_row_sum (seed S A B : Nat) (hB : 1 ≤ B)
    (hBS : B ≤ S) :
    ∀ b ∈ garetTransitionsData seed S A B, ∀ row ∈ b, row.sum = 1 := by
  intro b hb row hrow
  obtain ⟨a, _, rfl⟩ := List.mem_map.1 hb
  obtain ⟨i, _, rfl⟩ := List.mem_map.1 hrow
  exact garetTransitionRow_sum seed S B _ hB hBS

theorem garetRewardsData_length (seed S A B : Nat) :
    (garetRewardsData seed S A B).length = A := by
  simp [garetRewardsData]

theorem garetRewardsData_row_length (seed S A B : Nat) :
    ∀ rr ∈ garetRewardsData seed S A B, rr.length = S := by
  intro rr hrr
  obtain ⟨a, _, rfl⟩ := List.mem_map.1 hrr
  simp

theorem jnpRepeat_length (k : Nat) :
    ∀ xs : List ℚ, (jnpRepeat xs k).length = xs.length * k := by
  intro xs
  induction xs with
  | nil => simp [jnpRepeat]
  | cons x rest ih =>
    have hcons : jnpRepeat (x :: rest) k
        = List.replicate k x ++ jnpRepeat rest k := by
      simp [jnpRepeat]
    rw [hcons, List.length_append, List.length_replicate, ih, List.length_cons]
    ring

theorem jnpRepeat_getD (k : Nat) :
    ∀ (xs : List ℚ) (r c : Nat), r < xs.length → c < k →
      (jnpRepeat xs k).getD (r * k + c) 0 = xs.getD r 0 := by
  intro xs
  induction xs with
  | nil => intro r c hr _; simp at hr
  | cons x rest ih =>
    intro r c hr hc
    have hcons : jnpRepeat (x :: rest) k
        = List.replicate k x ++ jnpRepeat rest k := by
      simp [jnpRepeat]
    rw [hcons]
    cases r with
    | zero =>
      rw [Nat.zero_mul, Nat.zero_add,
        List.getD_append _ _ _ _ (by simpa using hc),
        List.getD_eq_getElem _ 0 (by simpa using hc), List.getElem_replicate]
      rfl
    | succ r =>
      have hmul : (r + 1) * k = r * k + k := by ring
      have hge : (List.replicate k x).length ≤ (r + 1) * k + c := by
        rw [List.length_replicate, hmul]
        omega
      rw [List.getD_append_right _ _ _ _ hge]
      have hidx : (r + 1) * k + c - (List.replicate k x).length = r * k + c := by
        rw [List.length_replicate, hmul]
        omega
      rw [hidx, ih r c (by simpa using hr) hc]
      rfl

theorem garetNextStateProbsFlat_zero (seed S A : Nat) :
    garetNextStateProbsFlat seed S A 0 = .error .reshapeNegOne := by
  rw [garetNextStateProbsFlat, jnpReshapeNegOne, if_pos (Or.inl rfl)]
  rfl

theorem zip_replicate_qdiv (v : ℚ) (xs : List ℚ) (k : Nat)
    (hk : xs.length = k) :
    (xs.zip (List.replicate k v)).map (fun xy => qdiv xy.1 xy.2)
      = xs.map (fun x => qdiv x v) := by
  subst hk
  induction xs with
  | nil => rfl
  | cons x rest ih =>
    simp only [List.length_cons, List.replicate_succ, List.zip_cons_cons,
      List.map_cons]
    rw [ih]

theorem jnpSumLastAxis_matrix (seed S A B : Nat) :
    jnpSumLastAxis (garetProbsUnnormalizedMatrix seed S A B)
      = (List.range (S * A)).map
          (fun p => sumQ (garetProbsUnnormalized seed B p)) := by
  rw [jnpSumLastAxis, garetProbsUnnormalizedMatrix, List.map_map]
  rfl

theorem garetNextStateProbsFlat_pos (seed S A B : Nat) (hB : 1 ≤ B) :
    garetNextStateProbsFlat seed S A B =
      .ok ((List.range (S * A)).map (fun p => garetProbs seed B p)) := by
  have hσlen : (jnpSumLastAxis (garetProbsUnnormalizedMatrix seed S A B)).length
      = S * A := by
    rw [jnpSumLastAxis_matrix, List.length_map, List.length_range]
  have hrlen : (jnpRepeat
      (jnpSumLastAxis (garetProbsUnnormalizedMatrix seed S A B)) B).length
      = (S * A) * B := by
    rw [jnpRepeat_length, hσlen]
  have hcond : ¬ (B = 0 ∨ (jnpRepeat
      (jnpSumLastAxis (garetProbsUnnormalizedMatrix seed S A B)) B).length % B
        ≠ 0) := by
    rw [hrlen]
    push_neg
    exact ⟨by omega, Nat.mul_mod_left (S * A) B⟩
  rw [garetNextStateProbsFlat, jnpReshapeNegOne, if_neg hcond]
  have hrows : (List.range ((jnpRepeat
        (jnpSumLastAxis (garetProbsUnnormalizedMatrix seed S A B)) B).length
          / B)).map (fun r => (List.range B).map (fun c =>
        (jnpRepeat (jnpSumLastAxis (garetProbsUnnormalizedMatrix seed S A B))
          B).getD (r * B + c) 0))
      = (List.range (S * A)).map
          (fun r => List.replicate B (sumQ (garetProbsUnnormalized seed B r))) := by
    rw [hrlen, Nat.mul_div_cancel _ (by omega : 0 < B)]
    apply List.map_congr_left
    intro r hrm
    have hrS : r < S * A := List.mem_range.1 hrm
    have hstep : (List.range B).map (fun c =>
        (jnpRepeat (jnpSumLastAxis (garetProbsUnnormalizedMatrix seed S A B))
          B).getD (r * B + c) 0)
        = (List.range B).map (fun _ =>
            (jnpSumLastAxis (garetProbsUnnormalizedMatrix seed S A B)).getD
              r 0) := by
      apply List.map_congr_left
      intro c hcm
      exact jnpRepeat_getD B _ r c (by rw [hσlen]; exact hrS)
        (List.mem_range.1 hcm)
    rw [hstep, List.map_const', List.length_range]
    have hget : (jnpSumLastAxis (garetProbsUnnormalizedMatrix seed S A B)).getD
        r 0 = sumQ (garetProbsUnnormalized seed B r) := by
      rw [jnpSumLastAxis_matrix,
        List.getD_eq_getElem _ 0 (by simpa using hrS), List.getElem_map,
        List.getElem_range]
    rw [hget]
  show Except.ok (matDivide (garetProbsUnnormalizedMatrix seed S A B) _) = _
  rw [hrows]
  congr 1
  rw [matDivide, garetProbsUnnormalizedMatrix, List.zip_map', List.map_map]
  apply List.map_congr_left
  intro p _
  show ((garetProbsUnnormalized seed B p).zip
      (List.replicate B (sumQ (garetProbsUnnormalized seed B p)))).map
        (fun xy => qdiv xy.1 xy.2)
    = garetProbs seed B p
  rw [zip_replicate_qdiv (sumQ (garetProbsUnnormalized seed B p))
    (garetProbsUnnormalized seed B p) B (garetProbsUnnormalized_length seed B p)]
  rfl

theorem garetTransitionsDataOf_probs (seed S A B : Nat) :
    garetTransitionsDataOf seed S A B
        ((List.range (S * A)).map (fun p => garetProbs seed B p))
      = garetTransitionsData seed S A B := by
  rw [garetTransitionsDataOf, garetTransitionsData]
  apply List.map_congr_left
  intro a ha
  apply List.map_congr_left
  intro s hs
  have haA := List.mem_range.1 ha
  have hsS := List.mem_range.1 hs
  have hp : s * A + a < S * A := by
    have h2 : (s + 1) * A ≤ S * A := Nat.mul_le_mul_right A hsS
    have h3 : (s + 1) * A = s * A + A := by ring
    omega
  have hg : ((List.range (S * A)).map (fun p => garetProbs seed B p)).getD
      (s * A + a) [] = garetProbs seed B (s * A + a) := by
    rw [List.getD_eq_getElem _ [] (by simpa using hp), List.getElem_map,
      List.getElem_range]
  rw [hg, garetTransitionRow]

theorem garetRewardsDataOf_probs (seed S A B : Nat) :
    garetRewardsDataOf seed S A B
        ((List.range (S * A)).map (fun p => garetProbs seed B p))
      = garetRewardsData seed S A B := by
  rw [garetRewardsDataOf, garetRewardsData]
  apply List.map_congr_left
  intro a ha
  apply List.map_congr_left
  intro s hs
  have haA := List.mem_range.1 ha
  have hsS := List.mem_range.1 hs
  have hp : s * A + a < S * A := by
    have h2 : (s + 1) * A ≤ S * A := Nat.mul_le_mul_right A hsS
    have h3 : (s + 1) * A = s * A + A := by ring
    omega
  have hg : ((List.range (S * A)).map (fun p => garetProbs seed B p)).getD
      (s * A + a) [] = garetProbs seed B (s * A + a) := by
    rw [List.getD_eq_getElem _ [] (by simpa using hp), List.getElem_map,
      List.getElem_range]
  rw [hg, garetRewardMarginal, garetTransitionRow]

theorem create_pos (seed S A B : Nat) (d : DType) (hB : 1 ≤ B) :
    create seed S A B d =
      match mkMarkovDecisionProcess
          (npCast d (garetTransitionMatrix32 seed S A B))
          (npCast d (garetRewardMatrix32 seed S A B))
          (garetName seed S A B d) with
      | .ok m => .ok m
      | .error e => .error (.invalidMdp e) := by
  rw [create, garetNextStateProbsFlat_pos seed S A B hB]
  dsimp only
  rw [garetTransitionsDataOf_probs, garetRewardsDataOf_probs]
  rfl

theorem create_eq_ok_iff (seed S A B : Nat) (d : DType)
    (m : MarkovDecisionProcess) :
    create seed S A B d = .ok m ↔
      1 ≤ B ∧
      mdpValidate (npCast d (garetTransitionMatrix32 seed S A B))
          (npCast d (garetRewardMatrix32 seed S A B)) = .ok () ∧
        m = ⟨npCast d (garetTransitionMatrix32 seed S A B),
             npCast d (garetRewardMatrix32 seed S A B),
             garetName seed S A B d⟩ := by
  by_cases hB : 1 ≤ B
  · rw [create_pos seed S A B d hB, mkMarkovDecisionProcess]
    cases hval : mdpValidate (npCast d (garetTransitionMatrix32 seed S A B))
        (npCast d (garetRewardMatrix32 seed S A B)) with
    | ok u =>
      cases u
      simp [hB, eq_comm]
    | error e =>
      simp
  · have hB0 : B = 0 := by omega
    subst hB0
    rw [create, garetNextStateProbsFlat_zero]
    simp

deriving instance DecidableEq for Except

/-- C1 (amended): for every seed, state count `S`, action count `A`, dtype and
branching factor `B` with `1 ≤ B` and `B ≤ S`, the MDP built by `garet.create`
passes `MarkovDecisionProcess` construction-time validation without raising:
its transitions are `A` blocks of `S` rows of length `S`, its rewards are `A`
rows of length `S`, both arrays carry the requested dtype, and every (action,
state) transition row sums to exactly 1 (hence within the `1e-5` tolerance).
The amendment excludes `B = 0`, where `create` raises in the
probability-normalization `reshape((-1, branching_factor))` before any
matrices are built. -/
theorem C1_garet_create_passes_validation (seed S A B : Nat) (d : DType)
    (hB : 1 ≤ B) (hBS : B ≤ S) :
    ∃ m, create seed S A B d = .ok m ∧
      m.transitions.data = .d3 (garetTransitionsData seed S A B) ∧
      m.rewards.data = .d2 (garetRewardsData seed S A B) ∧
      m.transitions.dtype = d ∧ m.rewards.dtype = d ∧
      (garetTransitionsData seed S A B).length = A ∧
      (∀ b ∈ garetTransitionsData seed S A B, b.length = S ∧
        ∀ row ∈ b, row.length = S) ∧
      (garetRewardsData seed S A B).length = A ∧
      (∀ rr ∈ garetRewardsData seed S A B, rr.length = S) := by
  have hb : ∀ b ∈ garetTransitionsData seed S A B, b.length = S :=
    fun b hbm => (garetTransitionsData_block seed S A B b hbm).1
  have hrow : ∀ b ∈ garetTransitionsData seed S A B, ∀ row ∈ b, row.length = S :=
    fun b hbm => (garetTransitionsData_block seed S A B b hbm).2
  have hr : (garetRewardsData seed S A B).length
      = (garetTransitionsData seed S A B).length := by
    rw [garetRewardsData_length, garetTransitionsData_length]
  have hval : mdpValidate (npCast d (garetTransitionMatrix32 seed S A B))
      (npCast d (garetRewardMatrix32 seed S A B)) = .ok () := by
    have he := mdpValidate_eq_of_wellShaped (garetTransitionsData seed S A B)
      (garetRewardsData seed S A B) d S hb hrow hr
      (garetRewardsData_row_length seed S A B)
    have hnone : mdpFirstBadAction 0 (garetTransitionsData seed S A B) = none := by
      rw [mdpFirstBadAction_eq_none_iff]
      intro b hbm
      rw [mdpBadStates_eq_nil_iff]
      intro row hrowm
      rw [garetTransitionsData_row_sum seed S A B hB hBS b hbm row hrowm,
        transitionSumTolerance_eq]
      norm_num
    calc mdpValidate (npCast d (garetTransitionMatrix32 seed S A B))
          (npCast d (garetRewardMatrix32 seed S A B))
        = mdpValidate ⟨.d3 (garetTransitionsData seed S A B), d⟩
            ⟨.d2 (garetRewardsData seed S A B), d⟩ := rfl
      _ = .ok () := by rw [he, hnone]
  exact ⟨⟨npCast d (garetTransitionMatrix32 seed S A B),
          npCast d (garetRewardMatrix32 seed S A B),
          garetName seed S A B d⟩,
    (create_eq_ok_iff seed S A B d _).2 ⟨hB, hval, rfl⟩, rfl, rfl, rfl, rfl,
    garetTransitionsData_length seed S A B,
    garetTransitionsData_block seed S A B,
    garetRewardsData_length seed S A B,
    garetRewardsData_row_length seed S A B⟩

theorem C1_garet_create_passes_validation_witness :
    ∃ m, create 0 2 1 1 .float32 = .ok m ∧
      m.transitions.data = .d3 (garetTransitionsData 0 2 1 1) ∧
      m.rewards.data = .d2 (garetRewardsData 0 2 1 1) ∧
      m.transitions.dtype = .float32 ∧ m.rewards.dtype = .float32 ∧
      (garetTransitionsData 0 2 1 1).length = 1 ∧
      (∀ b ∈ garetTransitionsData 0 2 1 1, b.length = 2 ∧
        ∀ row ∈ b, row.length = 2) ∧
      (garetRewardsData 0 2 1 1).length = 1 ∧
      (∀ rr ∈ garetRewardsData 0 2 1 1, rr.length = 2) :=
  C1_garet_create_passes_validation 0 2 1 1 .float32 (by decide) (by decide)

/-- Counterexample to C1 as frozen: the claim quantifies over every branching
factor `B ≤ S`, but at `seed = 0`, `S = 1`, `A = 1`, `B = 0` (and `0 ≤ 1`)
`create` raises before any matrices are built:
`next_state_prob_sums.reshape((-1, 0))` cannot resolve the `-1` dimension
(garet.py line 45), so no MDP is returned and the `MarkovDecisionProcess`
constructor is never reached. -/
theorem C1_counterexample_branching_zero :
    (0 : Nat) ≤ 1 ∧ create 0 1 1 0 .float32 = .error .reshapeNegOne :=
  ⟨by decide, by decide⟩

/-- C7: `garet.create` is deterministic — two calls with equal (seed, S, A, B,
dtype) produce equal results: the same validated MDP (bit-identical transition
and reward matrices and the same name), and the internal float32 matrices
coincide as well.  Determinism is inherent in the purely functional embedding:
the output depends on nothing but the five parameters. -/
theorem C7_garet_create_deterministic (s₁ s₂ S₁ S₂ A₁ A₂ B₁ B₂ : Nat)
    (d₁ d₂ : DType) (hs : s₁ = s₂) (hS : S₁ = S₂) (hA : A₁ = A₂)
    (hB : B₁ = B₂) (hd : d₁ = d₂) :
    create s₁ S₁ A₁ B₁ d₁ = create s₂ S₂ A₂ B₂ d₂ ∧
    garetTransitionMatrix32 s₁ S₁ A₁ B₁ = garetTransitionMatrix32 s₂ S₂ A₂ B₂ ∧
    garetRewardMatrix32 s₁ S₁ A₁ B₁ = garetRewardMatrix32 s₂ S₂ A₂ B₂ ∧
    garetName s₁ S₁ A₁ B₁ d₁ = garetName s₂ S₂ A₂ B₂ d₂ := by
  subst hs
  subst hS
  subst hA
  subst hB
  subst hd
  exact ⟨rfl, rfl, rfl, rfl⟩

theorem C7_garet_create_deterministic_witness :
    create 42 3 2 2 .float32 = create 42 3 2 2 .float32 ∧
    garetTransitionMatrix32 42 3 2 2 = garetTransitionMatrix32 42 3 2 2 ∧
    garetRewardMatrix32 42 3 2 2 = garetRewardMatrix32 42 3 2 2 ∧
    garetName 42 3 2 2 .float32 = garetName 42 3 2 2 .float32 :=
  C7_garet_create_deterministic 42 42 3 3 2 2 2 2 .float32 .float32
    rfl rfl rfl rfl rfl

/-- Transition row of a constructed MDP for action `a` and state `s`:
`transitions[a, s, :]`. -/
def mdpRow (m : MarkovDecisionProcess) (a s : Nat) : List ℚ :=
  match m.transitions.data with
  | .d3 blocks => (blocks.getD a []).getD s []
  | _ => []

/-- C8: in every MDP produced by `garet.create` with `B ≤ S`, every
(state, action) transition row has exactly `B` non-zero entries: the `B` next
states are sampled without replacement and each receives a positive normalized
probability, while all unchosen next states keep probability 0. -/
theorem C8_garet_sparsity (seed S A B : Nat) (d : DType) (a s : Nat)
    (m : MarkovDecisionProcess) (hBS : B ≤ S) (ha : a < A) (hs : s < S)
    (hm : create seed S A B d = .ok m) :
    countNonzero (mdpRow m a s) = B := by
  obtain ⟨-, -, rfl⟩ := (create_eq_ok_iff seed S A B d m).1 hm
  have hrow : mdpRow ⟨npCast d (garetTransitionMatrix32 seed S A B),
      npCast d (garetRewardMatrix32 seed S A B), garetName seed S A B d⟩ a s
      = garetTransitionRow seed S B (s * A + a) := by
    show ((garetTransitionsData seed S A B).getD a []).getD s []
      = garetTransitionRow seed S B (s * A + a)
    have e1 : (garetTransitionsData seed S A B).getD a []
        = (List.range S).map (fun i => garetTransitionRow seed S B (i * A + a)) := by
      rw [garetTransitionsData]
      have hA : a < ((List.range A).map (fun a => (List.range S).map
          (fun i => garetTransitionRow seed S B (i * A + a)))).length := by
        simpa using ha
      rw [List.getD_eq_getElem _ [] hA, List.getElem_map, List.getElem_range]
    have e2 : ((List.range S).map
        (fun i => garetTransitionRow seed S B (i * A + a))).getD s []
        = garetTransitionRow seed S B (s * A + a) := by
      have hS : s < ((List.range S).map
          (fun i => garetTransitionRow seed S B (i * A + a))).length := by
        simpa using hs
      rw [List.getD_eq_getElem _ [] hS, List.getElem_map, List.getElem_range]
    rw [e1, e2]
  rw [hrow]
  exact garetTransitionRow_countNonzero seed S B _ hBS

/-- The MDP that `create 0 2 1 1 float64` produces; used to instantiate the
C8 and C10 theorems at a concrete input. -/
def garetSampleMdp : MarkovDecisionProcess :=
  ⟨npCast .float64 (garetTransitionMatrix32 0 2 1 1),
   npCast .float64 (garetRewardMatrix32 0 2 1 1),
   garetName 0 2 1 1 .float64⟩

theorem C8_garet_sparsity_witness :
    (1 : Nat) ≤ 2 ∧ countNonzero (mdpRow garetSampleMdp 0 0) = 1 :=
  ⟨by decide,
    C8_garet_sparsity 0 2 1 1 .float64 0 0 garetSampleMdp (by decide)
      (by decide) (by decide)
      (by rw [create_pos 0 2 1 1 .float64 (by decide)]; decide)⟩

/-- C10: `garet.create` builds its transition and reward matrices internally
as float32 arrays and casts to the requested dtype only when assembling the
final `MarkovDecisionProcess`; the cast only retags the array (float32 values
are exactly representable in float64), so the returned data is exactly the
float32-pipeline data for every requested dtype. -/
theorem C10_garet_float32_internal (seed S A B : Nat) (d : DType)
    (m : MarkovDecisionProcess) (hm : create seed S A B d = .ok m) :
    (garetTransitionMatrix32 seed S A B).dtype = .float32 ∧
    (garetRewardMatrix32 seed S A B).dtype = .float32 ∧
    m.transitions = npCast d (garetTransitionMatrix32 seed S A B) ∧
    m.rewards = npCast d (garetRewardMatrix32 seed S A B) ∧
    m.transitions.data = (garetTransitionMatrix32 seed S A B).data ∧
    m.rewards.data = (garetRewardMatrix32 seed S A B).data ∧
    m.transitions.dtype = d ∧ m.rewards.dtype = d := by
  obtain ⟨-, -, rfl⟩ := (create_eq_ok_iff seed S A B d m).1 hm
  exact ⟨rfl, rfl, rfl, rfl, rfl, rfl, rfl, rfl⟩

theorem C10_garet_float32_internal_witness :
    (garetTransitionMatrix32 0 2 1 1).dtype = .float32 ∧
    (garetRewardMatrix32 0 2 1 1).dtype = .float32 ∧
    garetSampleMdp.transitions = npCast .float64 (garetTransitionMatrix32 0 2 1 1) ∧
    garetSampleMdp.rewards = npCast .float64 (garetRewardMatrix32 0 2 1 1) ∧
    garetSampleMdp.transitions.data = (garetTransitionMatrix32 0 2 1 1).data ∧
    garetSampleMdp.rewards.data = (garetRewardMatrix32 0 2 1 1).data ∧
    garetSampleMdp.transitions.dtype = .float64 ∧
    garetSampleMdp.rewards.dtype = .float64 :=
  C10_garet_float32_internal 0 2 1 1 .float64 garetSampleMdp
    (by rw [create_pos 0 2 1 1 .float64 (by decide)]; decide)

/-! ### Convergence harness (`experiments/evaluation_convergence.py`)

The harness drives an opaque evaluation-algorithm collaborator exposing
`update()`, `diverged()` and `get_estimates()`.  Mutation of the algorithm's
internal state is modelled by explicit state passing: `update` maps a state to
the successor state together with the returned array of per-element changes. -/

/-- Opaque evaluation-algorithm collaborator of the harness (the
`algorithm.Evaluation` interface): `update` performs one update step,
returning the per-element changes; `diverged` is the self-reported divergence
test. -/
structure EvalAlgorithm (σ : Type) where
  update : σ → σ × List ℚ
  diverged : σ → Bool

/-- `np.mean(np.abs(changes))`: the mean absolute change of one update. -/
def meanAbs (xs : List ℚ) : ℚ := qdiv (sumQ (xs.map absQ)) (xs.length : ℚ)

/-- The inner `for _ in range(inner_loop_range)` loop of one round: performs
`n` updates, accumulating `change_summary += np.mean(np.abs(changes))`;
returns the final state and the accumulated summary. -/
def innerLoop {σ : Type} (alg : EvalAlgorithm σ) : Nat → σ → ℚ → σ × ℚ
  | 0, st, acc => (st, acc)
  | n + 1, st, acc =>
    innerLoop alg n (alg.update st).1 (qadd acc (meanAbs (alg.update st).2))

/-- Outcome of one (environment, algorithm, step size) combination:
the `converged` flag, the number of rounds of the `for i in range(max_iters)`
loop that executed, and the algorithm's final state. -/
structure CombinationResult (σ : Type) where
  converged : Bool
  rounds : Nat
  state : σ
deriving DecidableEq

/-- The iteration count the harness prints (`after {i} iterations`): the Python
loop variable `i` at exit, which equals the number of executed rounds minus
one whenever at least one round ran. -/
def reportedIterations {σ : Type} (r : CombinationResult σ) : Nat :=
  r.rounds - 1

/-- The `for i in range(max_iters)` loop: each round runs the inner loop,
divides the accumulated summary by `inner_loop_range`, then stops with
`converged = False` if the algorithm reports divergence, stops with
`converged = True` if the round's change magnitude is within tolerance and
`i > 1`, and otherwise continues.  `fuel` is the remaining iteration budget
and `done` the number of rounds already executed (= the current `i`). -/
def runLoop {σ : Type} (alg : EvalAlgorithm σ) (innerRange : Nat) (tol : ℚ) :
    Nat → Nat → σ → CombinationResult σ
  | 0, done, st => ⟨false, done, st⟩
  | fuel + 1, done, st =>
    let u := innerLoop alg innerRange st 0
    let chg := qdiv u.2 (innerRange : ℚ)
    if alg.diverged u.1 then ⟨false, done + 1, u.1⟩
    else if chg ≤ tol ∧ done > 1 then ⟨true, done + 1, u.1⟩
    else runLoop alg innerRange tol fuel (done + 1) u.1

/-- One (environment, algorithm, step size) combination of `run`, driven for
up to `maxIters` rounds from the algorithm's freshly constructed state. -/
def runCombination {σ : Type} (alg : EvalAlgorithm σ) (innerRange : Nat)
    (tol : ℚ) (maxIters : Nat) (s0 : σ) : CombinationResult σ :=
  runLoop alg innerRange tol maxIters 0 s0

/-- Algorithm constructor as the sweep sees it: called with (environment,
initial values, step size, synchronized) and yielding the instance's initial
internal state together with its methods.  Modelled from the spec: the
concrete algorithm classes (dvi/mdvi/rvi) are outside the three core source
files; per §5/§6 each instance exclusively owns its internal value estimates. -/
structure AlgorithmConstructor (Env σ : Type) where
  make : Env → List ℚ → ℚ → Bool → σ × EvalAlgorithm σ

/-- One combination of the sweep: construct the algorithm from the
environment, the supplied initial values and the step size, then run the
iteration loop. -/
def runOne {Env σ : Type} (numStates : Env → Nat) (tol : ℚ) (maxIters : Nat)
    (synchronized : Bool) (env : Env) (c : AlgorithmConstructor Env σ)
    (initialValues : List ℚ) (stepSize : ℚ) : CombinationResult σ :=
  let innerRange := if synchronized then 1 else numStates env
  let p := c.make env initialValues stepSize synchronized
  runLoop p.2 innerRange tol maxIters 0 p.1

/-- The `run` function of `evaluation_convergence.py`: for each environment,
build the zero vector of initial values over its states once, then iterate
every algorithm constructor and every step size, running each combination to
completion and collecting its outcome. -/
def run {Env σ : Type} (environments : List Env) (numStates : Env → Nat)
    (algorithmConstructors : List (AlgorithmConstructor Env σ))
    (stepSizes : List ℚ) (maxIters : Nat) (tol : ℚ) (synchronized : Bool) :
    List (List (List (CombinationResult σ))) :=
  environments.map (fun env =>
    let initialValues := List.replicate (numStates env) (0 : ℚ)
    algorithmConstructors.map (fun c =>
      stepSizes.map (fun stepSize =>
        runOne numStates tol maxIters synchronized env c initialValues
          stepSize)))

theorem meanAbs_replicate_zero (n : Nat) :
    meanAbs (List.replicate n 0) = 0 := by
  rw [meanAbs, qdiv_eq, sumQ_eq_sum]
  have habs : (List.replicate n (0 : ℚ)).map absQ = List.replicate n 0 := by
    rw [List.map_replicate]
    congr 1
  rw [habs, List.sum_replicate]
  simp

theorem innerLoop_zero_change {σ : Type} (alg : EvalAlgorithm σ) (n : Nat)
    (hupd : ∀ st, (alg.update st).2 = List.replicate n 0) :
    ∀ (k : Nat) (st : σ) (acc : ℚ), (innerLoop alg k st acc).2 = acc := by
  intro k
  induction k with
  | zero => intro st acc; rfl
  | succ k ih =>
    intro st acc
    rw [innerLoop, hupd st, meanAbs_replicate_zero]
    have hacc : qadd acc 0 = acc := by rw [qadd_eq, add_zero]
    rw [hacc, ih]

/-- C4 (amended): if the algorithm reports divergence after the harness's
first round, the per-combination run stops immediately after that single
round, reports not-converged, and the printed iteration count (the loop index
`i`) is 0 — not 1 — regardless of `max_iters ≥ 1`. -/
theorem C4_divergence_short_circuit {σ : Type} (alg : EvalAlgorithm σ)
    (innerRange maxIters : Nat) (tol : ℚ) (s0 : σ)
    (hmax : 1 ≤ maxIters) (hdiv : ∀ st, alg.diverged st = true) :
    (runCombination alg innerRange tol maxIters s0).converged = false ∧
    (runCombination alg innerRange tol maxIters s0).rounds = 1 ∧
    reportedIterations (runCombination alg innerRange tol maxIters s0) = 0 := by
  obtain ⟨m, rfl⟩ : ∃ m, maxIters = m + 1 := ⟨maxIters - 1, by omega⟩
  rw [runCombination, runLoop]
  rw [hdiv]
  rw [if_pos rfl]
  exact ⟨rfl, rfl, rfl⟩

/-- Stub algorithm whose `diverged()` always returns true (and whose updates
report a single zero change). -/
def divergingStub : EvalAlgorithm Unit :=
  ⟨fun st => (st, [0]), fun _ => true⟩

theorem C4_divergence_short_circuit_witness :
    (runCombination divergingStub 1 transitionSumTolerance 5 ()).converged
        = false ∧
    (runCombination divergingStub 1 transitionSumTolerance 5 ()).rounds = 1 ∧
    reportedIterations
      (runCombination divergingStub 1 transitionSumTolerance 5 ()) = 0 :=
  C4_divergence_short_circuit divergingStub 1 5 transitionSumTolerance ()
    (by decide) (fun _ => rfl)

/-- Counterexample to C4 as frozen: with a stub whose `diverged()` returns
true after the first round and `max_iters = 5`, the harness's reported
iteration count (the printed loop index `i`) is 0, not 1. -/
theorem C4_counterexample_reported_count :
    reportedIterations
        (runCombination divergingStub 1 transitionSumTolerance 5 ()) = 0 ∧
    ¬ reportedIterations
        (runCombination divergingStub 1 transitionSumTolerance 5 ()) = 1 :=
  ⟨by decide, by decide⟩

theorem runLoop_zero_change {σ : Type} (alg : EvalAlgorithm σ)
    (innerRange : Nat) (tol : ℚ) (n : Nat) (htol : 0 ≤ tol)
    (hupd : ∀ st, (alg.update st).2 = List.replicate n 0)
    (hdiv : ∀ st, alg.diverged st = false) :
    ∀ (fuel done : Nat) (st : σ), done ≤ 2 → 3 ≤ done + fuel →
      (runLoop alg innerRange tol fuel done st).converged = true ∧
      (runLoop alg innerRange tol fuel done st).rounds = 3 := by
  have hchg : ∀ st : σ,
      qdiv (innerLoop alg innerRange st 0).2 (innerRange : ℚ) = 0 := by
    intro st
    rw [innerLoop_zero_change alg n hupd innerRange st 0, qdiv_eq, zero_div]
  intro fuel
  induction fuel with
  | zero => intro done st h1 h2; omega
  | succ fuel ih =>
    intro done st h1 h2
    rw [runLoop, hdiv]
    rw [if_neg Bool.false_ne_true, hchg]
    by_cases hdone : done > 1
    · rw [if_pos ⟨htol, hdone⟩]
      have : done = 2 := by omega
      subst this
      exact ⟨rfl, rfl⟩
    · rw [if_neg (fun h => hdone h.2)]
      exact ih (done + 1) _ (by omega) (by omega)

/-- C5: for any tolerance ≥ 0 and a trivially converging stub (every update
returns an all-zero, non-empty change array and the stub never self-reports
divergence), the harness declares the combination converged after exactly
three rounds and reports iteration count 2 — the first zero-based round index
`i` with mean absolute change within tolerance and `i > 1`, never earlier —
provided the iteration budget allows reaching round index 2. -/
theorem C5_zero_change_converges_at_two {σ : Type} (alg : EvalAlgorithm σ)
    (n innerRange maxIters : Nat) (tol : ℚ) (s0 : σ)
    (htol : 0 ≤ tol) (_hn : 1 ≤ n)
    (hupd : ∀ st, (alg.update st).2 = List.replicate n 0)
    (hdiv : ∀ st, alg.diverged st = false)
    (hmax : 3 ≤ maxIters) :
    (runCombination alg innerRange tol maxIters s0).converged = true ∧
    (runCombination alg innerRange tol maxIters s0).rounds = 3 ∧
    reportedIterations (runCombination alg innerRange tol maxIters s0) = 2 := by
  obtain ⟨h1, h2⟩ := runLoop_zero_change alg innerRange tol n htol hupd hdiv
    maxIters 0 s0 (by omega) (by omega)
  refine ⟨h1, h2, ?_⟩
  rw [reportedIterations, runCombination, h2]

/-- Stub algorithm whose updates always return the all-zero change array
`[0, 0]` and which never reports divergence. -/
def zeroChangeStub : EvalAlgorithm Unit :=
  ⟨fun st => (st, [0, 0]), fun _ => false⟩

theorem C5_zero_change_converges_at_two_witness :
    (0 : ℚ) ≤ 0 ∧
    (runCombination zeroChangeStub 1 0 10 ()).converged = true ∧
    (runCombination zeroChangeStub 1 0 10 ()).rounds = 3 ∧
    reportedIterations (runCombination zeroChangeStub 1 0 10 ()) = 2 :=
  ⟨le_refl 0,
    C5_zero_change_converges_at_two zeroChangeStub 2 1 10 0 () (le_refl 0)
      (by decide) (fun _ => rfl) (fun _ => rfl) (by decide)⟩

theorem runLoop_never_small {σ : Type} (alg : EvalAlgorithm σ)
    (innerRange : Nat) (tol : ℚ)
    (hdiv : ∀ st, alg.diverged st = false)
    (hbig : ∀ st : σ,
      tol < qdiv (innerLoop alg innerRange st 0).2 (innerRange : ℚ)) :
    ∀ (fuel done : Nat) (st : σ),
      (runLoop alg innerRange tol fuel done st).converged = false ∧
      (runLoop alg innerRange tol fuel done st).rounds = done + fuel := by
  intro fuel
  induction fuel with
  | zero => intro done st; exact ⟨rfl, rfl⟩
  | succ fuel ih =>
    intro done st
    rw [runLoop, hdiv]
    rw [if_neg Bool.false_ne_true,
      if_neg (fun h => absurd h.1 (not_le.2 (hbig st)))]
    obtain ⟨h1, h2⟩ := ih (done + 1) (innerLoop alg innerRange st 0).1
    exact ⟨h1, by rw [h2]; omega⟩

/-- C6: for every algorithm whose per-round change magnitude never drops to or
below the convergence tolerance and whose `diverged()` always returns false,
the harness performs exactly `max_iters` rounds and then reports the
combination not-converged. -/
theorem C6_exhaustion {σ : Type} (alg : EvalAlgorithm σ)
    (innerRange maxIters : Nat) (tol : ℚ) (s0 : σ)
    (hdiv : ∀ st, alg.diverged st = false)
    (hbig : ∀ st : σ,
      tol < qdiv (innerLoop alg innerRange st 0).2 (innerRange : ℚ)) :
    (runCombination alg innerRange tol maxIters s0).converged = false ∧
    (runCombination alg innerRange tol maxIters s0).rounds = maxIters := by
  obtain ⟨h1, h2⟩ :=
    runLoop_never_small alg innerRange tol hdiv hbig maxIters 0 s0
  exact ⟨h1, by rw [runCombination, h2]; omega⟩

/-- Stub algorithm whose every update changes one element by 1 and which never
reports divergence: its round change magnitude is 1, above tolerance 0. -/
def stubbornStub : EvalAlgorithm Unit :=
  ⟨fun st => (st, [1]), fun _ => false⟩

theorem C6_exhaustion_witness :
    stubbornStub.diverged () = false ∧
    (runCombination stubbornStub 1 0 4 ()).converged = false ∧
    (runCombination stubbornStub 1 0 4 ()).rounds = 4 :=
  ⟨rfl,
    (C6_exhaustion stubbornStub 1 4 0 () (fun _ => rfl) (by decide)).1,
    (C6_exhaustion stubbornStub 1 4 0 () (fun _ => rfl) (by decide)).2⟩

/-- C9: no mutable state is shared between distinct (environment, algorithm
constructor, step size) combinations: the sweep's outcome list equals the
per-combination map of `runOne`, where each combination constructs its
algorithm from the zero vector of initial value estimates over the
environment's states and threads its own state exclusively — the result of
one combination is a function of that combination's parameters alone.
(Algorithm internals are outside the three core source files and are modelled
from the spec as opaque pure state machines that own their state.) -/
theorem C9_combinations_independent {Env σ : Type} (environments : List Env)
    (numStates : Env → Nat)
    (algorithmConstructors : List (AlgorithmConstructor Env σ))
    (stepSizes : List ℚ) (maxIters : Nat) (tol : ℚ) (synchronized : Bool) :
    run environments numStates algorithmConstructors stepSizes maxIters tol
        synchronized =
      environments.map (fun env =>
        algorithmConstructors.map (fun c =>
          stepSizes.map (fun stepSize =>
            runOne numStates tol maxIters synchronized env c
              (List.replicate (numStates env) (0 : ℚ)) stepSize))) := rfl
